import Mathlib

/-
Shallow embedding of the sidle encrypted key-value store
(src/sidle/enc.py, src/sidle/_sidle.py, src/sidle/utils.py).

Modelling conventions:
- A Python byte string is a `List Nat`; a Python `str` is modelled by the
  list of its UTF-8 code units, so `convert_bytes` on a `str` is the
  identity on the underlying list.
- Dynamically typed Python values flowing through the store are modelled
  by the inductive `PyObj` (str, bytes, int, list, tuple).  Equality of a
  `str` and a `bytes` value is `False` in Python, which corresponds to
  distinct constructors here.
- Raised Python exceptions are modelled with `Except PyErr`.
- The external AES primitive from pycryptodome is abstracted as a
  `BlockCipher` (a pair of functions on 16-byte blocks) combined with the
  standard CBC chaining, which is what `AES.new(key, AES.MODE_CBC, IV)`
  computes.  The library's input validation is modelled: the constructor
  rejects an IV that is not exactly 16 bytes with ValueError, and CBC
  decryption rejects data that is not a multiple of 16 bytes with
  ValueError.  The SHA-256 key derivation is folded into the choice of
  the `BlockCipher`, so a password is represented by the cipher it
  induces.
- The random IV produced by `make_initialization_vector` is passed in as
  an explicit argument.
-/

/-- Byte strings are lists of naturals (each entry a byte value). -/
abbrev Bytes := List Nat

/-- The Python exceptions that the modelled code can raise. -/
inductive PyErr where
  | valueError
  | typeError
  | indexError
  | keyError
  | passwordError
  | syntaxError
  | recursionError
deriving DecidableEq

/-- Dynamically typed Python values: str, bytes, int, list, tuple. -/
inductive PyObj where
  | s (v : Bytes)
  | b (v : Bytes)
  | intg (v : Int)
  | list (v : List PyObj)
  | tup (v : List PyObj)

/-- Python equality between a dynamically typed value and a str: equal
exactly when the value is a str with the same text; comparisons across
types (bytes vs str in particular) are False, never an error.  Every
comparison in the modelled source has a plain str on its right-hand
side. -/
def pyEqStr (o : PyObj) (t : Bytes) : Bool :=
  match o with
  | .s v => decide (v = t)
  | _ => false

/-- ASCII lower-casing of one byte, as bytes.lower does per byte. -/
def lowerByte (c : Nat) : Nat :=
  if 65 ≤ c ∧ c ≤ 90 then c + 32 else c

/-- ASCII lower-casing of a byte string; for the ASCII keys used here it
also models str.lower on the UTF-8 code units. -/
def lowerBytes (v : Bytes) : Bytes := v.map lowerByte

/-- The .lower() method on a Python value.  On a str or bytes value it
lower-cases; the remaining constructors never reach a .lower() call in
the modelled paths (Python would raise AttributeError there). -/
def pyLower : PyObj → PyObj
  | .s v => .s (lowerBytes v)
  | .b v => .b (lowerBytes v)
  | o => o

/-- Python truthiness test used by `if not _:` in SidleData.load. -/
def pyFalsy : PyObj → Bool
  | .s v => v.isEmpty
  | .b v => v.isEmpty
  | .intg n => n = 0
  | .list v => v.isEmpty
  | .tup v => v.isEmpty

/-- Is c a UTF-8 continuation byte (0x80..0xBF)? -/
def utf8Cont (c : Nat) : Bool := decide (128 ≤ c ∧ c ≤ 191)

/-- Consume one UTF-8 scalar from the front, returning the remaining
bytes, or none when the front is not a valid UTF-8 sequence. -/
def utf8Step : Bytes → Option Bytes
  | [] => none
  | c :: r =>
    if c ≤ 127 then some r
    else if 194 ≤ c ∧ c ≤ 223 then
      match r with
      | c1 :: r1 => if utf8Cont c1 then some r1 else none
      | [] => none
    else if c = 224 then
      match r with
      | c1 :: c2 :: r2 => if decide (160 ≤ c1 ∧ c1 ≤ 191) && utf8Cont c2 then some r2 else none
      | _ => none
    else if 225 ≤ c ∧ c ≤ 236 then
      match r with
      | c1 :: c2 :: r2 => if utf8Cont c1 && utf8Cont c2 then some r2 else none
      | _ => none
    else if c = 237 then
      match r with
      | c1 :: c2 :: r2 => if decide (128 ≤ c1 ∧ c1 ≤ 159) && utf8Cont c2 then some r2 else none
      | _ => none
    else if 238 ≤ c ∧ c ≤ 239 then
      match r with
      | c1 :: c2 :: r2 => if utf8Cont c1 && utf8Cont c2 then some r2 else none
      | _ => none
    else if c = 240 then
      match r with
      | c1 :: c2 :: c3 :: r3 => if decide (144 ≤ c1 ∧ c1 ≤ 191) && utf8Cont c2 && utf8Cont c3 then some r3 else none
      | _ => none
    else if 241 ≤ c ∧ c ≤ 243 then
      match r with
      | c1 :: c2 :: c3 :: r3 => if utf8Cont c1 && utf8Cont c2 && utf8Cont c3 then some r3 else none
      | _ => none
    else if c = 244 then
      match r with
      | c1 :: c2 :: c3 :: r3 => if decide (128 ≤ c1 ∧ c1 ≤ 143) && utf8Cont c2 && utf8Cont c3 then some r3 else none
      | _ => none
    else none

/-- Fueled UTF-8 scanning loop; a step consumes at least one byte, so a
budget of the input length suffices. -/
def utf8ValidAux : Nat → Bytes → Bool
  | _, [] => true
  | 0, _ :: _ => false
  | fuel + 1, l =>
    match utf8Step l with
    | some r => utf8ValidAux fuel r
    | none => false

/-- UTF-8 validity of a byte string: bytes.decode succeeds exactly on
valid UTF-8, which is what `convert_string` attempts in decrypt. -/
def utf8Valid (l : Bytes) : Bool :=
  utf8ValidAux l.length l

/-- sidle.utils.convert_bytes: a str is UTF-8 encoded; any other value
reaches `bytes(value, encoding=...)`, which raises TypeError because the
source is not a string. -/
def convert_bytes : PyObj → Except PyErr Bytes
  | .s v => .ok v
  | _ => .error .typeError

/-- The abstract 16-byte block permutation (AES under the key derived
from the password); see the module comment. -/
structure BlockCipher where
  enc : Bytes → Bytes
  dec : Bytes → Bytes

/-- Byte-wise xor of two equal-length byte strings. -/
def xorBytes (a c : Bytes) : Bytes := List.zipWith Nat.xor a c

/-- Block splitting worker: the first argument is a step budget that is
at least the input length at every intended call, so the middle case is
never reached there. -/
def chunks16Aux : Nat → Bytes → List Bytes
  | _, [] => []
  | 0, _ :: _ => []
  | fuel + 1, c0 :: r0 => ((c0 :: r0).take 16) :: chunks16Aux fuel ((c0 :: r0).drop 16)

/-- Split a byte string into 16-byte blocks (the AES block size). -/
def chunks16 (xs : Bytes) : List Bytes :=
  chunks16Aux xs.length xs

/-- CBC-mode encryption over a block list, chaining from prev. -/
def cbcEncBlocks (C : BlockCipher) (prev : Bytes) : List Bytes → List Bytes
  | [] => []
  | blk :: rest =>
    let c := C.enc (xorBytes prev blk)
    c :: cbcEncBlocks C c rest

/-- CBC-mode decryption over a block list, chaining from prev. -/
def cbcDecBlocks (C : BlockCipher) (prev : Bytes) : List Bytes → List Bytes
  | [] => []
  | c :: rest => xorBytes prev (C.dec c) :: cbcDecBlocks C c rest

/-- SidleEncryption.pad_string: the first byte stores the pad count
to_pad = (16 - (len + 1)) % 16 (Python % on a possibly negative left
operand, hence the Int computation), followed by the plaintext and
to_pad zero bytes. -/
def SidleEncryption.pad_string (string : Bytes) : Bytes :=
  let to_pad : Nat := (((16 : Int) - ((string.length : Int) + 1)) % 16).toNat
  to_pad :: (string ++ List.replicate to_pad 0)

/-- SidleEncryption.unpad_string: read the first byte p; if p is 0
return the input unchanged, otherwise return string[1:-p].  On an empty
input, string[0] raises IndexError. -/
def SidleEncryption.unpad_string (string : Bytes) : Except PyErr Bytes :=
  match string with
  | [] => .error .indexError
  | c :: rest =>
    if c = 0 then .ok (c :: rest)
    else .ok (rest.take (rest.length - c))

/-- SidleEncryption.encrypt on a str input: reject the empty and the
single-blank string, pad, CBC-encrypt, and prepend the IV. -/
def SidleEncryption.encrypt (C : BlockCipher) (IV : Bytes) (string : Bytes) : Except PyErr Bytes :=
  if string = [32] ∨ string = [] then .error .valueError
  else .ok (IV ++ (cbcEncBlocks C IV (chunks16 (SidleEncryption.pad_string string))).flatten)

/-- SidleEncryption.decrypt: slice off the 16-byte IV (AES.new rejects
a shorter IV with ValueError), CBC-decrypt the remainder (the library
rejects data that is not 16-byte aligned with ValueError), unpad, try
to decode as text (falling back to raw bytes), and raise PasswordError
when the result is the empty string.  An unpad failure escapes the
try/except because the except branch unpads again. -/
def SidleEncryption.decrypt (C : BlockCipher) (encrypted_string : Bytes) : Except PyErr PyObj :=
  if (encrypted_string.take 16).length ≠ 16 then .error .valueError
  else if (encrypted_string.drop 16).length % 16 ≠ 0 then .error .valueError
  else
  match SidleEncryption.unpad_string
      ((cbcDecBlocks C (encrypted_string.take 16)
        (chunks16 (encrypted_string.drop 16))).flatten) with
  | .error e => .error e
  | .ok u =>
    if utf8Valid u then
      if u = [] then .error .passwordError else .ok (PyObj.s u)
    else .ok (PyObj.b u)

/-- Decrypting a stored record component, which is only well typed when
the component is a bytes value; on a str (or other) value the AES call
rejects the sliced IV object (records hold ciphertext bytes in every
intended state). -/
def SidleEncryption.decryptAny (C : BlockCipher) : PyObj → Except PyErr PyObj
  | .b d => SidleEncryption.decrypt C d
  | _ => .error .typeError

/-- SidleEncryption.__init__: the password is passed through
convert_bytes before any use. -/
def SidleEncryption.init (password : PyObj) : Except PyErr Bytes :=
  convert_bytes password

/-- The decrypting list comprehension shared by SidleData.__getitem__ and
SidleData.__delitem__: decrypt both components of every record, in
record order, propagating the first raised exception. -/
def decPairs (C : BlockCipher) : List (PyObj × PyObj) → Except PyErr (List (PyObj × PyObj))
  | [] => .ok []
  | (k, v) :: rest =>
    match SidleEncryption.decryptAny C k with
    | .error e => .error e
    | .ok dk =>
      match SidleEncryption.decryptAny C v with
      | .error e => .error e
      | .ok dv =>
        match decPairs C rest with
        | .error e => .error e
        | .ok ds => .ok ((dk, dv) :: ds)

/-- The lookup loop of SidleData.__getitem__: first record whose
lower-cased key equals the lower-cased plaintext key. -/
def lookupLoop (kLow : Bytes) : List (PyObj × PyObj) → Option PyObj
  | [] => none
  | (k, v) :: rest =>
    if pyEqStr (pyLower k) kLow then some v else lookupLoop kLow rest

/-- SidleData.__getitem__ for a str key: decrypt every record, scan for
a case-folded match; with error=False a miss returns None, with
error=True it raises KeyError.  (The int/slice branches do not apply to
a str key.) -/
def SidleData.getitem (C : BlockCipher) (st : List (PyObj × PyObj)) (key : Bytes) (error : Bool) : Except PyErr (Option PyObj) :=
  match decPairs C st with
  | .error e => .error e
  | .ok encrypted_data =>
    match lookupLoop (lowerBytes key) encrypted_data with
    | some v => .ok (some v)
    | none => if error then .error .keyError else .ok none

/-- SidleData.get with default bytes=False, type=None: call __getitem__
(whose error flag defaults to False) and return the caller-supplied
default only if it raised KeyError. -/
def SidleData.get (C : BlockCipher) (st : List (PyObj × PyObj)) (key : Bytes) (default : Option PyObj) : Except PyErr (Option PyObj) :=
  match SidleData.getitem C st key false with
  | .error .keyError => .ok default
  | r => r

/-- The scan-replace loop of SidleData.set: find the first record whose
decrypted lower-cased key matches, replace it in place, then reassign
the records after it to those whose raw stored key, lower-cased, is not
equal to the plaintext lower-cased key (the comparison of encrypted
bytes with a str that is always unequal in Python); the for-else appends
when no record matches.  (The `if self._list == None` branch of the
source is unreachable: the list attribute is always a list.) -/
def SidleData.setLoop (C : BlockCipher) (kLow : Bytes) (ek ev : PyObj) : List (PyObj × PyObj) → Except PyErr (List (PyObj × PyObj))
  | [] => .ok [(ek, ev)]
  | (o_key, o_value) :: rest =>
    match SidleEncryption.decryptAny C o_key with
    | .error e => .error e
    | .ok dk =>
      if pyEqStr (pyLower dk) kLow then
        .ok ((ek, ev) :: rest.filter (fun x => !pyEqStr (pyLower x.1) kLow))
      else
        match SidleData.setLoop C kLow ek ev rest with
        | .error e => .error e
        | .ok tail => .ok ((o_key, o_value) :: tail)

/-- SidleData.set: encrypt key and value with fresh IVs, then run the
scan-replace loop against the lower-cased plaintext key. -/
def SidleData.set (C : BlockCipher) (IVk IVv : Bytes) (st : List (PyObj × PyObj)) (key value : Bytes) : Except PyErr (List (PyObj × PyObj)) :=
  match SidleEncryption.encrypt C IVk key with
  | .error e => .error e
  | .ok ek =>
    match SidleEncryption.encrypt C IVv value with
    | .error e => .error e
    | .ok ev => SidleData.setLoop C (lowerBytes key) (PyObj.b ek) (PyObj.b ev) st

/-- SidleData.add: append the pair as given, without encryption or
uniqueness enforcement. -/
def SidleData.add (st : List (PyObj × PyObj)) (key value : PyObj) : List (PyObj × PyObj) :=
  st ++ [(key, value)]

/-- SidleData.__delitem__ for a str key (as called by remove with
index=False): decrypt every record, keep those whose decrypted
lower-cased key differs from the lower-cased input key, and assign that
list of DECRYPTED pairs back as the record list. -/
def SidleData.delitemStr (C : BlockCipher) (st : List (PyObj × PyObj)) (key : Bytes) : Except PyErr (List (PyObj × PyObj)) :=
  match decPairs C st with
  | .error e => .error e
  | .ok encrypted_data =>
    .ok (encrypted_data.filter (fun p => !pyEqStr (pyLower p.1) (lowerBytes key)))

/-- SidleData.remove: delegate to __delitem__ with index=False. -/
def SidleData.remove (C : BlockCipher) (st : List (PyObj × PyObj)) (key : Bytes) : Except PyErr (List (PyObj × PyObj)) :=
  SidleData.delitemStr C st key

/-- SidleData.keys: the loop appends the first component of every
record, in record order, without decrypting. -/
def SidleData.keys : List (PyObj × PyObj) → List PyObj
  | [] => []
  | (k, _) :: rest => k :: SidleData.keys rest

/-- SidleData.copy: calls the constructor with the record list in the
password position; SidleEncryption.__init__ then applies convert_bytes
to it. -/
def SidleData.copy (st : List (PyObj × PyObj)) : Except PyErr Bytes :=
  SidleEncryption.init (PyObj.list (st.map (fun p => PyObj.tup [p.1, p.2])))

/-- Skip ASCII spaces. -/
def skipWs : List Nat → List Nat
  | 32 :: r => skipWs r
  | s => s

/-- Is c an ASCII digit? -/
def isDigit (c : Nat) : Bool := decide (48 ≤ c ∧ c ≤ 57)

/-- Take a maximal run of ASCII digits. -/
def takeDigits : List Nat → (List Nat × List Nat)
  | [] => ([], [])
  | c :: r =>
    if isDigit c then
      let p := takeDigits r
      (c :: p.1, p.2)
    else ([], c :: r)

/-- Decimal value of a digit run. -/
def digitsToNat (ds : List Nat) : Nat :=
  ds.foldl (fun acc c => 10 * acc + (c - 48)) 0

/-- Hexadecimal value of one ASCII character, if any. -/
def hexDigit (c : Nat) : Option Nat :=
  if 48 ≤ c ∧ c ≤ 57 then some (c - 48)
  else if 97 ≤ c ∧ c ≤ 102 then some (c - 87)
  else if 65 ≤ c ∧ c ≤ 70 then some (c - 55)
  else none

/-- Characters of a single-quoted Python string or bytes literal up to
the closing quote, handling the escapes produced by repr.  The first
argument is a step budget, at least the input length at every intended
call. -/
def quotedCharsAux : Nat → List Nat → Option (List Nat × List Nat)
  | 0, _ => none
  | fuel + 1, input =>
    match input with
    | [] => none
    | c :: r =>
      if c = 39 then some ([], r)
      else if c = 92 then
        match r with
        | [] => none
        | e :: r2 =>
          if e = 92 ∨ e = 39 then (quotedCharsAux fuel r2).map (fun p => (e :: p.1, p.2))
          else if e = 110 then (quotedCharsAux fuel r2).map (fun p => (10 :: p.1, p.2))
          else if e = 116 then (quotedCharsAux fuel r2).map (fun p => (9 :: p.1, p.2))
          else if e = 114 then (quotedCharsAux fuel r2).map (fun p => (13 :: p.1, p.2))
          else if e = 120 then
            match r2 with
            | h1 :: h2 :: r3 =>
              match hexDigit h1, hexDigit h2 with
              | some a, some c2 => (quotedCharsAux fuel r3).map (fun p => ((16 * a + c2) :: p.1, p.2))
              | _, _ => none
            | _ => none
          else none
      else (quotedCharsAux fuel r).map (fun p => (c :: p.1, p.2))

/-- Quoted-literal characters with the budget set from the input. -/
def quotedChars (input : List Nat) : Option (List Nat × List Nat) :=
  quotedCharsAux input.length input

mutual

/-- One Python literal (int, str, bytes, list or tuple) from the front
of the input; models the grammar fragment that ast.literal_eval accepts
on reprs of sidle record lists.  The fuel argument bounds the nesting
and is chosen larger than the input length at the top entry. -/
def parseVal (fuel : Nat) (input : List Nat) : Option (PyObj × List Nat) :=
  match fuel with
  | 0 => none
  | fuel2 + 1 =>
    match skipWs input with
    | [] => none
    | c :: r =>
      if c = 91 then (parseItems fuel2 93 r).map (fun p => (PyObj.list p.1, p.2))
      else if c = 40 then (parseItems fuel2 41 r).map (fun p => (PyObj.tup p.1, p.2))
      else if c = 39 then (quotedChars r).map (fun p => (PyObj.s p.1, p.2))
      else if c = 98 then
        match r with
        | q :: r2 => if q = 39 then (quotedChars r2).map (fun p => (PyObj.b p.1, p.2)) else none
        | [] => none
      else if c = 45 then
        match takeDigits r with
        | ([], _) => none
        | (ds, rest) => some (PyObj.intg (-(digitsToNat ds : Int)), rest)
      else if isDigit c then
        let p := takeDigits (c :: r)
        some (PyObj.intg (digitsToNat p.1), p.2)
      else none

/-- Comma-separated literals up to a closing bracket. -/
def parseItems (fuel : Nat) (close : Nat) (input : List Nat) : Option (List PyObj × List Nat) :=
  match fuel with
  | 0 => none
  | fuel2 + 1 =>
    match skipWs input with
    | [] => none
    | c :: r =>
      if c = close then some ([], r)
      else
        match parseVal fuel2 (c :: r) with
        | none => none
        | some (v, rest) =>
          match skipWs rest with
          | [] => none
          | c2 :: r2 =>
            if c2 = 44 then
              match parseItems fuel2 close r2 with
              | some (vs, rest2) => some (v :: vs, rest2)
              | none => none
            else if c2 = close then some ([v], r2)
            else none

end

/-- ast.literal_eval: parse the whole text as one literal; any parse
failure raises (SyntaxError or ValueError, modelled as syntaxError),
never PasswordError. -/
def literalEval (t : Bytes) : Except PyErr PyObj :=
  match parseVal (t.length + 1) t with
  | some (v, rest) => if skipWs rest = [] then .ok v else .error .syntaxError
  | none => .error .syntaxError

/-- The tail of SidleData.load after the truthiness check: raise
PasswordError when the decryption produced raw bytes, otherwise run
ast.literal_eval on the text and install the parsed value as the new
record list (whatever its shape). -/
def SidleData.loadFinish : PyObj → Except PyErr PyObj
  | PyObj.b _ => .error .passwordError
  | PyObj.s t => literalEval t
  | o =>
    match o with
    | PyObj.b _ => .error .passwordError
    | _ => .error .typeError

/-- SidleData.load with an explicit recursion budget standing for the
Python interpreter stack limit.  The pair also counts the decrypt
attempts made.  When the decrypted value is falsy the source re-invokes
self.load(data) discarding its result, swallowing only RecursionError,
and then continues with the falsy value. -/
def SidleData.loadAux (C : BlockCipher) : Nat → Bytes → Except PyErr PyObj × Nat
  | 0, _ => (.error .recursionError, 0)
  | fuel + 1, data =>
    match SidleEncryption.decrypt C data with
    | .error e => (.error e, 1)
    | .ok v =>
      if pyFalsy v then
        let r := SidleData.loadAux C fuel data
        match r.1 with
        | .error .recursionError => (SidleData.loadFinish v, 1 + r.2)
        | .error e => (.error e, 1 + r.2)
        | .ok _ => (SidleData.loadFinish v, 1 + r.2)
      else (SidleData.loadFinish v, 1)

/-- SidleData.load at the standard interpreter recursion limit. -/
def SidleData.load (C : BlockCipher) (data : Bytes) : Except PyErr PyObj :=
  (SidleData.loadAux C 1000 data).1

/-- Number of decrypt attempts a SidleData.load call performs. -/
def SidleData.loadAttempts (C : BlockCipher) (data : Bytes) : Nat :=
  (SidleData.loadAux C 1000 data).2

/-- Unpacking `for k, v in list` over a loaded record list: only a list
of 2-tuples unpacks; anything else raises. -/
def pyObjToRecords : PyObj → Except PyErr (List (PyObj × PyObj))
  | PyObj.list items =>
    items.foldr
      (fun it acc =>
        match it, acc with
        | PyObj.tup [k, v], .ok r => .ok ((k, v) :: r)
        | _, .ok _ => .error .typeError
        | _, .error e => .error e)
      (.ok [])
  | _ => .error .typeError

/-- Sidle.__getitem__ with the file contents passed in for the raw read:
a zero-length file returns None without ever calling load; otherwise
load the blob and look the key up in the loaded records. -/
def Sidle.getitemRaw (C : BlockCipher) (raw : Bytes) (key : Bytes) : Except PyErr (Option PyObj) :=
  if raw.length = 0 then .ok none
  else
    match SidleData.load C raw with
    | .error e => .error e
    | .ok o =>
      match pyObjToRecords o with
      | .error e => .error e
      | .ok st => SidleData.getitem C st key false

/-- The identity block cipher, used to instantiate the abstract AES
permutation on concrete inputs. -/
def cId : BlockCipher := ⟨fun blk => blk, fun blk => blk⟩

/-- A concrete all-zero 16-byte IV. -/
def zeros16 : Bytes := List.replicate 16 0

/-- Ciphertext of the one-letter key a under cId with the zero IV. -/
def eA : Bytes := zeros16 ++ (14 :: 97 :: List.replicate 14 0)

/-- Ciphertext of the one-character value 1 under cId with the zero IV. -/
def e1 : Bytes := zeros16 ++ (14 :: 49 :: List.replicate 14 0)

/-- Ciphertext of the one-character value 2 under cId with the zero IV. -/
def e2 : Bytes := zeros16 ++ (14 :: 50 :: List.replicate 14 0)

/-- A fifteen-byte plaintext (fifteen times the letter a), whose padded
length needs zero padding bytes. -/
def v15 : Bytes := List.replicate 15 97

/-- A store holding two records that both decrypt to the key a. -/
def stDup : List (PyObj × PyObj) := [(PyObj.b eA, PyObj.b e1), (PyObj.b eA, PyObj.b e1)]

/-- A store holding one record decrypting to the pair (a, 1). -/
def stOne : List (PyObj × PyObj) := [(PyObj.b eA, PyObj.b e1)]

/-- A blob decrypting under cId to the text consisting of one opening
parenthesis, which is not a well-formed literal. -/
def blobParen : Bytes := zeros16 ++ (14 :: 40 :: List.replicate 14 0)

/-- Does the record decrypt to a key equal to the given case-folded
plaintext key?  (The predicate the de-duplication guarantee of set is
about.) -/
def matchesKey (C : BlockCipher) (kLow : Bytes) (r : PyObj × PyObj) : Bool :=
  match SidleEncryption.decryptAny C r.1 with
  | .ok d => pyEqStr (pyLower d) kLow
  | .error _ => false

theorem pad_string_length (v : Bytes) :
    (SidleEncryption.pad_string v).length % 16 = 0 := by
  simp only [SidleEncryption.pad_string, List.length_cons, List.length_append,
    List.length_replicate]
  omega

theorem chunks16Aux_nil (fuel : Nat) : chunks16Aux fuel [] = [] := by
  cases fuel <;> rfl

theorem chunks16Aux_flatten (fuel : Nat) :
    ∀ xs : Bytes, xs.length ≤ fuel → (chunks16Aux fuel xs).flatten = xs := by
  induction fuel with
  | zero =>
    intro xs h
    have : xs = [] := List.eq_nil_of_length_eq_zero (by omega)
    subst this; rfl
  | succ fuel ih =>
    intro xs h
    cases xs with
    | nil => rfl
    | cons c0 r0 =>
      simp only [chunks16Aux, List.flatten_cons]
      rw [ih ((c0 :: r0).drop 16)
        (by simp only [List.length_drop, List.length_cons] at h ⊢; omega)]
      exact List.take_append_drop 16 (c0 :: r0)

theorem chunks16_flatten (xs : Bytes) : (chunks16 xs).flatten = xs :=
  chunks16Aux_flatten xs.length xs (le_refl _)

theorem chunks16Aux_all16 (fuel : Nat) :
    ∀ xs : Bytes, xs.length ≤ fuel → xs.length % 16 = 0 →
      ∀ blk ∈ chunks16Aux fuel xs, blk.length = 16 := by
  induction fuel with
  | zero =>
    intro xs h _ blk hblk
    have : xs = [] := List.eq_nil_of_length_eq_zero (by omega)
    subst this; simp [chunks16Aux] at hblk
  | succ fuel ih =>
    intro xs h hmod blk hblk
    cases xs with
    | nil => simp [chunks16Aux] at hblk
    | cons c0 r0 =>
      have h16 : 16 ≤ (c0 :: r0).length := by
        have : 0 < (c0 :: r0).length := by simp
        omega
      simp only [chunks16Aux, List.mem_cons] at hblk
      rcases hblk with hblk | hblk
      · subst hblk; rw [List.length_take]; omega
      · exact ih ((c0 :: r0).drop 16)
          (by simp only [List.length_drop, List.length_cons] at h ⊢; omega)
          (by rw [List.length_drop]; omega) blk hblk

theorem chunks16_all16 (xs : Bytes) (h : xs.length % 16 = 0) :
    ∀ blk ∈ chunks16 xs, blk.length = 16 :=
  chunks16Aux_all16 xs.length xs (le_refl _) h

theorem chunks16Aux_flatten_of_all16 (bs : List Bytes) (h : ∀ blk ∈ bs, blk.length = 16) :
    ∀ fuel : Nat, bs.flatten.length ≤ fuel → chunks16Aux fuel bs.flatten = bs := by
  induction bs with
  | nil => intro fuel _; exact chunks16Aux_nil fuel
  | cons blk bs ih =>
    intro fuel hf
    have hb : blk.length = 16 := h blk (by simp)
    cases fuel with
    | zero =>
      exfalso
      rw [List.flatten_cons, List.length_append, hb] at hf
      omega
    | succ fuel =>
      cases blk with
      | nil => simp at hb
      | cons c0 r0 =>
        rw [List.flatten_cons, List.cons_append]
        simp only [chunks16Aux]
        rw [← List.cons_append, List.take_left' hb, List.drop_left' hb,
          ih (fun d hd => h d (by simp [hd])) fuel
            (by rw [List.flatten_cons, List.length_append, hb] at hf; omega)]

theorem chunks16_flatten_of_all16 (bs : List Bytes) (h : ∀ blk ∈ bs, blk.length = 16) :
    chunks16 bs.flatten = bs :=
  chunks16Aux_flatten_of_all16 bs h bs.flatten.length (le_refl _)

theorem xorBytes_length (a c : Bytes) : (xorBytes a c).length = min a.length c.length :=
  List.length_zipWith _ _ _

theorem xorBytes_cancel (a c : Bytes) (h : a.length = c.length) :
    xorBytes a (xorBytes a c) = c := by
  induction a generalizing c with
  | nil =>
    cases c with
    | nil => rfl
    | cons y ys => simp at h
  | cons x xs ih =>
    cases c with
    | nil => simp at h
    | cons y ys =>
      simp only [xorBytes, List.zipWith_cons_cons]
      have hxy : x.xor (x.xor y) = y := Nat.xor_cancel_left x y
      rw [hxy]
      have := ih ys (by simpa using h)
      simp only [xorBytes] at this
      rw [this]

theorem cbcEncBlocks_all16 (C : BlockCipher)
    (hL : ∀ blk : Bytes, blk.length = 16 → (C.enc blk).length = 16) :
    ∀ (bs : List Bytes) (prev : Bytes), prev.length = 16 →
      (∀ blk ∈ bs, blk.length = 16) →
      ∀ c ∈ cbcEncBlocks C prev bs, c.length = 16 := by
  intro bs
  induction bs with
  | nil => intro prev _ _ c hc; simp [cbcEncBlocks] at hc
  | cons blk bs ih =>
    intro prev hprev hall c hc
    have hblk : blk.length = 16 := hall blk (by simp)
    have hx : (xorBytes prev blk).length = 16 := by
      rw [xorBytes_length, hprev, hblk]; rfl
    have henc : (C.enc (xorBytes prev blk)).length = 16 := hL _ hx
    simp only [cbcEncBlocks, List.mem_cons] at hc
    rcases hc with hc | hc
    · rw [hc]; exact henc
    · exact ih (C.enc (xorBytes prev blk)) henc (fun d hd => hall d (by simp [hd])) c hc

theorem cbc_roundtrip (C : BlockCipher)
    (hC : ∀ blk : Bytes, blk.length = 16 → C.dec (C.enc blk) = blk)
    (hL : ∀ blk : Bytes, blk.length = 16 → (C.enc blk).length = 16) :
    ∀ (bs : List Bytes) (prev : Bytes), prev.length = 16 →
      (∀ blk ∈ bs, blk.length = 16) →
      cbcDecBlocks C prev (cbcEncBlocks C prev bs) = bs := by
  intro bs
  induction bs with
  | nil => intro prev _ _; rfl
  | cons blk bs ih =>
    intro prev hprev hall
    have hblk : blk.length = 16 := hall blk (by simp)
    have hx : (xorBytes prev blk).length = 16 := by
      rw [xorBytes_length, hprev, hblk]; rfl
    simp only [cbcEncBlocks, cbcDecBlocks]
    rw [hC _ hx, xorBytes_cancel prev blk (by omega),
      ih (C.enc (xorBytes prev blk)) (hL _ hx) (fun d hd => hall d (by simp [hd]))]

theorem unpad_pad_of_mod_ne (v : Bytes) (h : (v.length + 1) % 16 ≠ 0) :
    SidleEncryption.unpad_string (SidleEncryption.pad_string v) = .ok v := by
  have htne : (((16:Int) - ((v.length:Int)+1)) % 16).toNat ≠ 0 := by omega
  simp only [SidleEncryption.pad_string, SidleEncryption.unpad_string]
  rw [if_neg htne]
  congr 1
  have harith : (v ++ List.replicate (((16:Int) - ((v.length:Int)+1)) % 16).toNat 0).length
      - (((16:Int) - ((v.length:Int)+1)) % 16).toNat = v.length := by
    simp only [List.length_append, List.length_replicate]
    omega
  rw [harith, List.take_left' rfl]

theorem pad_of_mod_eq (v : Bytes) (h : (v.length + 1) % 16 = 0) :
    SidleEncryption.pad_string v = 0 :: v := by
  have ht : (((16:Int) - ((v.length:Int)+1)) % 16).toNat = 0 := by omega
  simp only [SidleEncryption.pad_string, ht, List.replicate_zero, List.append_nil]

theorem utf8Valid_cons_zero (v : Bytes) : utf8Valid (0 :: v) = utf8Valid v := rfl

theorem flatten_all16_mod (bs : List Bytes) (h : ∀ blk ∈ bs, blk.length = 16) :
    bs.flatten.length % 16 = 0 := by
  induction bs with
  | nil => rfl
  | cons blk bs ih =>
    rw [List.flatten_cons, List.length_append, h blk (by simp)]
    have := ih (fun d hd => h d (by simp [hd]))
    omega

theorem decrypt_encrypt_core (C : BlockCipher)
    (hC : ∀ blk : Bytes, blk.length = 16 → C.dec (C.enc blk) = blk)
    (hL : ∀ blk : Bytes, blk.length = 16 → (C.enc blk).length = 16)
    (IV : Bytes) (hIV : IV.length = 16) (v : Bytes) :
    SidleEncryption.decrypt C (IV ++ (cbcEncBlocks C IV (chunks16 (SidleEncryption.pad_string v))).flatten)
      = match SidleEncryption.unpad_string (SidleEncryption.pad_string v) with
        | .error e => .error e
        | .ok u => if utf8Valid u then (if u = [] then .error .passwordError else .ok (PyObj.s u)) else .ok (PyObj.b u) := by
  have hall : ∀ blk ∈ chunks16 (SidleEncryption.pad_string v), blk.length = 16 :=
    chunks16_all16 _ (pad_string_length v)
  have hctall : ∀ c ∈ cbcEncBlocks C IV (chunks16 (SidleEncryption.pad_string v)), c.length = 16 :=
    cbcEncBlocks_all16 C hL _ IV hIV hall
  have hctmod : (cbcEncBlocks C IV (chunks16 (SidleEncryption.pad_string v))).flatten.length % 16 = 0 :=
    flatten_all16_mod _ hctall
  unfold SidleEncryption.decrypt
  rw [List.take_left' hIV, List.drop_left' hIV,
    if_neg (not_not_intro hIV), if_neg (not_not_intro hctmod),
    chunks16_flatten_of_all16 _ hctall,
    cbc_roundtrip C hC hL _ IV hIV hall,
    chunks16_flatten]

theorem decrypt_ok_shape (C : BlockCipher) (d : Bytes) (v : PyObj)
    (h : SidleEncryption.decrypt C d = .ok v) :
    (∃ u : Bytes, v = PyObj.s u ∧ u ≠ []) ∨ (∃ u : Bytes, v = PyObj.b u ∧ utf8Valid u = false) := by
  unfold SidleEncryption.decrypt at h
  by_cases h1 : (d.take 16).length ≠ 16
  · rw [if_pos h1] at h; cases h
  rw [if_neg h1] at h
  by_cases h2 : (d.drop 16).length % 16 ≠ 0
  · rw [if_pos h2] at h; cases h
  rw [if_neg h2] at h
  cases hu : SidleEncryption.unpad_string ((cbcDecBlocks C (d.take 16) (chunks16 (d.drop 16))).flatten) with
  | error e => rw [hu] at h; cases h
  | ok u =>
    rw [hu] at h
    dsimp only at h
    by_cases h8 : utf8Valid u = true
    · rw [if_pos h8] at h
      by_cases he : u = []
      · rw [if_pos he] at h; cases h
      · rw [if_neg he] at h
        exact Or.inl ⟨u, (Except.ok.inj h).symm, he⟩
    · rw [if_neg h8] at h
      exact Or.inr ⟨u, (Except.ok.inj h).symm, by simpa using h8⟩

theorem decrypt_ok_not_falsy (C : BlockCipher) (d : Bytes) (v : PyObj)
    (h : SidleEncryption.decrypt C d = .ok v) : pyFalsy v = false := by
  rcases decrypt_ok_shape C d v h with ⟨u, hv, hne⟩ | ⟨u, hv, h8⟩
  · subst hv
    cases u with
    | nil => exact absurd rfl hne
    | cons a r => rfl
  · subst hv
    have hne : u ≠ [] := by
      intro hc
      rw [hc] at h8
      exact absurd h8 (by decide)
    cases u with
    | nil => exact absurd rfl hne
    | cons a r => rfl

theorem decrypt_lt16 (C : BlockCipher) (data : Bytes) (h : data.length < 16) :
    SidleEncryption.decrypt C data = .error .valueError := by
  have h1 : (data.take 16).length ≠ 16 := by rw [List.length_take]; omega
  unfold SidleEncryption.decrypt
  rw [if_pos h1]

theorem decrypt_eq16 (C : BlockCipher) (data : Bytes) (h : data.length = 16) :
    SidleEncryption.decrypt C data = .error .indexError := by
  have h1 : ¬((data.take 16).length ≠ 16) := by rw [List.length_take]; omega
  have hdrop : data.drop 16 = [] := List.drop_eq_nil_of_le (by omega)
  unfold SidleEncryption.decrypt
  rw [hdrop, if_neg h1, if_neg (by simp)]
  rfl

theorem literalEval_cases (t : Bytes) :
    (∃ v, literalEval t = .ok v) ∨ literalEval t = .error .syntaxError := by
  unfold literalEval
  cases hp : parseVal (t.length + 1) t with
  | none => exact Or.inr rfl
  | some p =>
    obtain ⟨v, rest⟩ := p
    dsimp only
    by_cases hr : skipWs rest = []
    · rw [if_pos hr]
      exact Or.inl ⟨v, rfl⟩
    · rw [if_neg hr]
      exact Or.inr rfl

/-- Claim C1 (amended): for every block cipher whose decryption inverts
encryption on 16-byte blocks, every 16-byte IV and every plaintext
other than the empty string and the single blank (which encrypt
rejects) that decodes as text, the encrypt/decrypt round trip returns
the plaintext exactly when its length plus one is not a multiple of the
block size; when it is a multiple, the stored pad-count byte 0 is not
stripped by unpad_string and the round trip returns a NUL byte
prepended to the plaintext. -/
theorem roundtrip_characterisation (C : BlockCipher)
    (hC : ∀ blk : Bytes, blk.length = 16 → C.dec (C.enc blk) = blk)
    (hL : ∀ blk : Bytes, blk.length = 16 → (C.enc blk).length = 16)
    (IV v : Bytes) (hIV : IV.length = 16)
    (hne : v ≠ []) (hnb : v ≠ [32]) (hutf : utf8Valid v = true) :
    ((v.length + 1) % 16 ≠ 0 →
      (SidleEncryption.encrypt C IV v).bind (SidleEncryption.decrypt C) = .ok (PyObj.s v)) ∧
    ((v.length + 1) % 16 = 0 →
      (SidleEncryption.encrypt C IV v).bind (SidleEncryption.decrypt C) = .ok (PyObj.s (0 :: v))) := by
  have henc : SidleEncryption.encrypt C IV v
      = .ok (IV ++ (cbcEncBlocks C IV (chunks16 (SidleEncryption.pad_string v))).flatten) := by
    unfold SidleEncryption.encrypt
    rw [if_neg (by simp [hne, hnb])]
  constructor
  · intro hmod
    rw [henc]
    show SidleEncryption.decrypt C _ = _
    rw [decrypt_encrypt_core C hC hL IV hIV v, unpad_pad_of_mod_ne v hmod]
    dsimp only
    rw [if_pos hutf, if_neg hne]
  · intro hmod
    rw [henc]
    show SidleEncryption.decrypt C _ = _
    rw [decrypt_encrypt_core C hC hL IV hIV v, pad_of_mod_eq v hmod]
    have hz : SidleEncryption.unpad_string (0 :: v) = .ok (0 :: v) := rfl
    rw [hz]
    dsimp only
    have h8 : utf8Valid (0 :: v) = true := by rw [utf8Valid_cons_zero]; exact hutf
    rw [if_pos h8, if_neg (by simp)]

/-- Claim C1 counterexample: for the fifteen-byte plaintext (whose
padded length needs zero padding bytes) the round trip under the
identity block cipher returns the plaintext with a NUL byte prepended,
not the plaintext itself. -/
theorem roundtrip_fails_at_block_boundary :
    (SidleEncryption.encrypt cId zeros16 v15).bind (SidleEncryption.decrypt cId)
        = .ok (PyObj.s (0 :: v15))
      ∧ (0 :: v15 : Bytes) ≠ v15 :=
  ⟨rfl, by decide⟩

/-- Claim C1 witness: the round trip is the identity on a one-byte
plaintext. -/
theorem roundtrip_characterisation_witness :
    (SidleEncryption.encrypt cId zeros16 [97]).bind (SidleEncryption.decrypt cId)
      = .ok (PyObj.s [97]) :=
  (roundtrip_characterisation cId (fun _ _ => rfl) (fun _ h => h) zeros16 [97]
    (by decide) (by decide) (by decide) (by decide)).1 (by decide)

/-- Claim C9 (amended): decrypt raises IndexError from unpadding the
empty post-IV portion exactly when the ciphertext length is exactly the
16-byte block size; for shorter inputs the AES constructor rejects the
short IV with ValueError before unpadding runs; for no input of length
at most 16 is PasswordError raised. -/
theorem short_ciphertext_errors (C : BlockCipher) (data : Bytes) :
    (data.length = 16 → SidleEncryption.decrypt C data = .error .indexError) ∧
    (data.length < 16 → SidleEncryption.decrypt C data = .error .valueError) ∧
    (data.length ≤ 16 → SidleEncryption.decrypt C data ≠ .error .passwordError) := by
  refine ⟨fun h => decrypt_eq16 C data h, fun h => decrypt_lt16 C data h, fun h => ?_⟩
  rcases Nat.lt_or_ge data.length 16 with hlt | hge
  · rw [decrypt_lt16 C data hlt]
    intro hc
    injection hc with hc2
    cases hc2
  · have he : data.length = 16 := by omega
    rw [decrypt_eq16 C data he]
    intro hc
    injection hc with hc2
    cases hc2

/-- Claim C9 counterexample: a fifteen-byte ciphertext is rejected by
the AES constructor's IV-length check with ValueError, not the
IndexError the claim asserts for every input of length at most 16
(which arises only at length exactly 16). -/
theorem short_ciphertext_not_index_error :
    SidleEncryption.decrypt cId (List.replicate 15 0) = .error .valueError
      ∧ (Except.error .valueError : Except PyErr PyObj) ≠ .error .indexError := by
  refine ⟨rfl, ?_⟩
  intro hc
  injection hc with hc2
  cases hc2

/-- Claim C9 witness: a 16-byte ciphertext yields IndexError and a
15-byte one yields ValueError under the identity cipher. -/
theorem short_ciphertext_errors_witness :
    SidleEncryption.decrypt cId zeros16 = .error .indexError
      ∧ SidleEncryption.decrypt cId (List.replicate 15 0) = .error .valueError :=
  ⟨(short_ciphertext_errors cId zeros16).1 (by decide),
   (short_ciphertext_errors cId (List.replicate 15 0)).2.1 (by decide)⟩

/-- Claim C10: copy passes the record list as the constructor password
argument, so for every store (empty or not) convert_bytes receives a
non-str value and raises TypeError; copy never returns a store. -/
theorem copy_always_type_error (st : List (PyObj × PyObj)) :
    SidleData.copy st = .error .typeError := rfl

theorem getitem_of_decPairs (C : BlockCipher) (st : List (PyObj × PyObj)) (key : Bytes)
    (error : Bool) (dst : List (PyObj × PyObj)) (hd : decPairs C st = .ok dst) :
    SidleData.getitem C st key error =
      match lookupLoop (lowerBytes key) dst with
      | some v => .ok (some v)
      | none => if error then .error .keyError else .ok none := by
  unfold SidleData.getitem
  rw [hd]

/-- Claim C3: get with a caller-supplied default returns None, not the
default, whenever no record's decrypted case-folded key matches: the
KeyError branch that would return the default is unreachable because
getitem is called with its error flag defaulting to False. -/
theorem get_ignores_default (C : BlockCipher) (st : List (PyObj × PyObj)) (key : Bytes)
    (default : Option PyObj) (dst : List (PyObj × PyObj))
    (hd : decPairs C st = .ok dst) (hmiss : lookupLoop (lowerBytes key) dst = none) :
    SidleData.get C st key default = .ok none := by
  unfold SidleData.get
  rw [getitem_of_decPairs C st key false dst hd, hmiss]
  rfl

/-- Claim C3 witness: on the empty store, get with default d returns
None rather than d. -/
theorem get_ignores_default_witness :
    SidleData.get cId [] [97] (some (PyObj.s [100])) = .ok none :=
  get_ignores_default cId [] [97] (some (PyObj.s [100])) [] rfl rfl

/-- Claim C5 (amended): keys returns the raw first components of the
records, one per record in record order — the stored (still encrypted)
key fields, not decrypted key strings. -/
theorem keys_returns_stored_components (st : List (PyObj × PyObj)) :
    SidleData.keys st = st.map Prod.fst ∧ (SidleData.keys st).length = st.length := by
  have hmap : SidleData.keys st = st.map Prod.fst := by
    induction st with
    | nil => rfl
    | cons p rest ih =>
      obtain ⟨k, v⟩ := p
      simp only [SidleData.keys, List.map_cons, ih]
  exact ⟨hmap, by rw [hmap, List.length_map]⟩

/-- Claim C5 counterexample: on a store holding one record whose key
decrypts to the letter a, keys returns the stored ciphertext, which is
a bytes value and not the decrypted key string. -/
theorem keys_not_decrypted :
    SidleData.keys stOne = [PyObj.b eA]
      ∧ SidleEncryption.decryptAny cId (PyObj.b eA) = .ok (PyObj.s [97])
      ∧ PyObj.b eA ≠ PyObj.s [97] :=
  ⟨rfl, rfl, fun hc => PyObj.noConfusion hc⟩

theorem loadAux_decrypt_error (C : BlockCipher) (fuel : Nat) (data : Bytes) (e : PyErr)
    (h : SidleEncryption.decrypt C data = .error e) :
    SidleData.loadAux C (fuel + 1) data = (.error e, 1) := by
  unfold SidleData.loadAux
  rw [h]

theorem loadAux_decrypt_ok (C : BlockCipher) (fuel : Nat) (data : Bytes) (v : PyObj)
    (h : SidleEncryption.decrypt C data = .ok v) :
    SidleData.loadAux C (fuel + 1) data = (SidleData.loadFinish v, 1) := by
  have hf : pyFalsy v = false := decrypt_ok_not_falsy C data v h
  unfold SidleData.loadAux
  rw [h]
  dsimp only
  rw [if_neg (by rw [hf]; exact Bool.false_ne_true)]

theorem load_of_decrypt_error (C : BlockCipher) (data : Bytes) (e : PyErr)
    (h : SidleEncryption.decrypt C data = .error e) :
    SidleData.load C data = .error e := by
  unfold SidleData.load
  rw [show (1000 : Nat) = 999 + 1 from rfl, loadAux_decrypt_error C 999 data e h]

theorem load_of_decrypt_ok (C : BlockCipher) (data : Bytes) (v : PyObj)
    (h : SidleEncryption.decrypt C data = .ok v) :
    SidleData.load C data = SidleData.loadFinish v := by
  unfold SidleData.load
  rw [show (1000 : Nat) = 999 + 1 from rfl, loadAux_decrypt_ok C 999 data v h]

/-- Claim C8 (amended): a zero-length blob is handled by the Sidle
layer, whose read path checks for length 0 and returns None without
calling load and without raising, behaving as an empty store; but
SidleData.load itself applied to the zero-length blob raises ValueError
(the AES constructor rejects the empty IV slice). -/
theorem empty_blob_handling (C : BlockCipher) (key : Bytes) :
    Sidle.getitemRaw C [] key = .ok none ∧ SidleData.load C [] = .error .valueError :=
  ⟨rfl, load_of_decrypt_error C [] .valueError (decrypt_lt16 C [] (by simp))⟩

/-- Claim C8 counterexample: loading the zero-length blob raises
ValueError instead of producing an empty store without error. -/
theorem load_empty_blob_raises : SidleData.load cId [] = .error .valueError := rfl

/-- Claim C7: for every input, load makes at most two (in fact exactly
one) decryption attempts: decrypt never returns a falsy (empty) value —
it raises instead — so the recursive retry branch guarded by the
truthiness test is unreachable and the recursion budget is never
consumed. -/
theorem load_attempts_bounded (C : BlockCipher) (data : Bytes) :
    ((SidleEncryption.decrypt C data).toOption.all (fun v => !pyFalsy v)) = true ∧
      SidleData.loadAttempts C data ≤ 2 := by
  cases h : SidleEncryption.decrypt C data with
  | error e =>
    refine ⟨rfl, ?_⟩
    unfold SidleData.loadAttempts
    rw [show (1000 : Nat) = 999 + 1 from rfl, loadAux_decrypt_error C 999 data e h]
    show (1 : Nat) ≤ 2
    omega
  | ok v =>
    constructor
    · show (!pyFalsy v) = true
      rw [decrypt_ok_not_falsy C data v h]
      rfl
    · unfold SidleData.loadAttempts
      rw [show (1000 : Nat) = 999 + 1 from rfl, loadAux_decrypt_ok C 999 data v h]
      show (1 : Nat) ≤ 2
      omega

/-- Claim C6 (amended): load raises PasswordError exactly when the
outer decryption yields raw bytes (wrong password) or itself raises the
empty-result PasswordError; a decrypted text whose inner parse fails
raises a parse error instead, and a parse success installs the parsed
value whatever its shape. -/
theorem load_password_error_iff (C : BlockCipher) (data : Bytes) :
    SidleData.load C data = .error .passwordError ↔
      (SidleEncryption.decrypt C data = .error .passwordError ∨
        ∃ u : Bytes, SidleEncryption.decrypt C data = .ok (PyObj.b u)) := by
  cases h : SidleEncryption.decrypt C data with
  | error e =>
    rw [load_of_decrypt_error C data e h]
    constructor
    · exact fun hl => Or.inl hl
    · rintro (hl | ⟨u, hu⟩)
      · exact hl
      · cases hu
  | ok v =>
    rw [load_of_decrypt_ok C data v h]
    rcases decrypt_ok_shape C data v h with ⟨u, hv, _⟩ | ⟨u, hv, _⟩
    · subst hv
      constructor
      · intro hl
        exfalso
        rcases literalEval_cases u with ⟨w, hw⟩ | hsyn
        · rw [show SidleData.loadFinish (PyObj.s u) = literalEval u from rfl, hw] at hl
          cases hl
        · rw [show SidleData.loadFinish (PyObj.s u) = literalEval u from rfl, hsyn] at hl
          exact PyErr.noConfusion (Except.error.inj hl)
      · rintro (hl | ⟨u2, hu2⟩)
        · cases hl
        · exact absurd (Except.ok.inj hu2) (fun hc => PyObj.noConfusion hc)
    · subst hv
      exact ⟨fun _ => Or.inr ⟨u, rfl⟩, fun _ => rfl⟩

/-- Claim C6 counterexample: a blob whose outer decryption is the text
of a single opening parenthesis makes the inner parse fail; load raises
SyntaxError there, not PasswordError as the claim states. -/
theorem load_parse_failure_not_password_error :
    SidleEncryption.decrypt cId blobParen = .ok (PyObj.s [40])
      ∧ SidleData.load cId blobParen = .error .syntaxError
      ∧ SidleData.load cId blobParen ≠ .error .passwordError := by
  refine ⟨rfl, rfl, ?_⟩
  intro hc
  rw [show SidleData.load cId blobParen = .error .syntaxError from rfl] at hc
  injection hc with hc2
  cases hc2

/-- Claim C2: on a store holding two records whose keys decrypt to the
letter a, set of that key replaces the first record but keeps the
second: the de-duplication filter compares the stored encrypted key
bytes, lower-cased, against the lower-cased plaintext key str, a
bytes-to-str comparison that is always unequal, so after set two
records still map to the case-folded key rather than exactly one. -/
theorem set_keeps_duplicate_records :
    SidleData.set cId zeros16 zeros16 stDup [97] [50]
        = .ok [(PyObj.b eA, PyObj.b e2), (PyObj.b eA, PyObj.b e1)]
      ∧ List.countP (fun r => matchesKey cId [97] r)
          [(PyObj.b eA, PyObj.b e2), (PyObj.b eA, PyObj.b e1)] = 2
      ∧ (2 : Nat) ≠ 1 :=
  ⟨rfl, rfl, by omega⟩

/-- Claim C4: removing a key that matches no record raises no error but
rewrites the surviving records as their decrypted plaintext pairs: the
store afterwards no longer holds the original ciphertext pairs. -/
theorem remove_stores_decrypted_pairs :
    SidleData.remove cId stOne [98] = .ok [(PyObj.s [97], PyObj.s [49])]
      ∧ (PyObj.s [97], PyObj.s [49]) ≠ (PyObj.b eA, PyObj.b e1) :=
  ⟨rfl, fun hc => PyObj.noConfusion (congrArg Prod.fst hc)⟩
